import Mathlib

/-!
Verification development for the counter-strike cases price/event scraper.

The Python sources are embedded shallowly:
* `event_scraping.py` : `parse_date_range`, the per-row record construction of
  `scrape_tournaments`, and `filter_last_year`.
* `steam_weapon_cases_scraper.py` : `extract_from_page_source`,
  `get_price_history`, the per-page item deduplication and the progressive
  aggregation/persist loop of `scrape_multiple_pages`.

Python strings are modelled as `List Char` (with `String` wrappers at the API),
`datetime` values as a six-field record ordered lexicographically, floats as
rationals (only parsing and comparison occur in the source), and fallible code
as `Option`.
-/

namespace CsCases

/-! ### Python string primitives -/

/-- `leadsWith pat cs` : does `cs` start with `pat`? -/
def leadsWith : List Char → List Char → Bool
  | [], _ => true
  | _ :: _, [] => false
  | a :: as, b :: bs => a = b && leadsWith as bs

/-- Python's substring test `pat in s`. -/
def containsSub (pat : List Char) : List Char → Bool
  | [] => leadsWith pat []
  | c :: rest => leadsWith pat (c :: rest) || containsSub pat rest

/-- Worker for `splitOnCL`; the fuel is an upper bound on the number of steps,
always sufficient because each step consumes at least one character. -/
def splitGo (sep : List Char) : Nat → List Char → List Char → List (List Char)
  | 0, cs, acc => [acc.reverse ++ cs]
  | _ + 1, [], acc => [acc.reverse]
  | fuel + 1, c :: rest, acc =>
    if leadsWith sep (c :: rest) then
      acc.reverse :: splitGo sep fuel (rest.drop (sep.length - 1)) []
    else
      splitGo sep fuel rest (c :: acc)

/-- Python's `s.split(sep)` for a non-empty separator: split on every
(non-overlapping, left-to-right) occurrence, keeping empty chunks. -/
def splitOnCL (sep cs : List Char) : List (List Char) :=
  splitGo sep (cs.length + 1) cs []

/-- Worker for `splitWs`. -/
def wordsGo : List Char → List Char → List (List Char)
  | [], acc => if acc.isEmpty then [] else [acc.reverse]
  | c :: rest, acc =>
    if c.isWhitespace then
      if acc.isEmpty then wordsGo rest [] else acc.reverse :: wordsGo rest []
    else
      wordsGo rest (c :: acc)

/-- Python's `s.split()` (no argument): split on whitespace runs, dropping
empty chunks. -/
def splitWs (cs : List Char) : List (List Char) :=
  wordsGo cs []

/-- Python's `s.strip()`. -/
def stripCL (cs : List Char) : List Char :=
  ((cs.dropWhile Char.isWhitespace).reverse.dropWhile Char.isWhitespace).reverse

/-! ### Datetime values -/

/-- A `datetime.datetime` value (microseconds are not modelled; no claim
depends on sub-second resolution). -/
structure DateTime where
  year : Nat
  month : Nat
  day : Nat
  hour : Nat
  minute : Nat
  second : Nat
deriving DecidableEq

/-- Lexicographic `≤` on equal-length `Nat` lists, the comparison Python uses
on `datetime` components. -/
def lexLeNat : List Nat → List Nat → Bool
  | [], _ => true
  | _ :: _, [] => false
  | a :: as, b :: bs => if a = b then lexLeNat as bs else decide (a < b)

def DateTime.key (d : DateTime) : List Nat :=
  [d.year, d.month, d.day, d.hour, d.minute, d.second]

/-- `a <= b` on `datetime` values. -/
def dtLeb (a b : DateTime) : Bool :=
  lexLeNat a.key b.key

theorem lexLeNat_total : ∀ xs ys : List Nat, lexLeNat xs ys || lexLeNat ys xs
  | [], _ => by simp [lexLeNat]
  | _ :: _, [] => by simp [lexLeNat]
  | a :: as, b :: bs => by
    by_cases h : a = b
    · simpa [lexLeNat, h] using lexLeNat_total as bs
    · simp only [lexLeNat, h, if_false]
      have h' : ¬ b = a := fun hba => h hba.symm
      simp only [h', if_false]
      rcases Nat.lt_or_ge a b with hlt | hge
      · simp [hlt]
      · have : b < a := Nat.lt_of_le_of_ne hge fun hba => h' hba
        simp [this]

theorem lexLeNat_trans : ∀ xs ys zs : List Nat,
    lexLeNat xs ys = true → lexLeNat ys zs = true → lexLeNat xs zs = true
  | [], _, _, _, _ => by simp [lexLeNat]
  | _ :: _, [], _, h, _ => by simp [lexLeNat] at h
  | _ :: _, _ :: _, [], _, h => by simp [lexLeNat] at h
  | a :: as, b :: bs, c :: cs, h1, h2 => by
    by_cases hab : a = b
    · subst hab
      by_cases hbc : a = c
      · subst hbc
        simp only [lexLeNat, if_pos rfl] at h1 h2 ⊢
        exact lexLeNat_trans as bs cs h1 h2
      · simp only [lexLeNat, if_pos rfl] at h1
        simpa [lexLeNat, hbc] using h2
    · simp only [lexLeNat, hab, if_false, decide_eq_true_eq] at h1
      by_cases hbc : b = c
      · subst hbc
        simp [lexLeNat, hab, h1]
      · simp only [lexLeNat, hbc, if_false, decide_eq_true_eq] at h2
        have hac : a < c := Nat.lt_trans h1 h2
        simp [lexLeNat, Nat.ne_of_lt hac, hac]

theorem dtLeb_total (a b : DateTime) : dtLeb a b || dtLeb b a :=
  lexLeNat_total a.key b.key

theorem dtLeb_trans {a b c : DateTime}
    (h1 : dtLeb a b = true) (h2 : dtLeb b c = true) : dtLeb a c = true :=
  lexLeNat_trans a.key b.key c.key h1 h2

/-- On values whose time-of-day components are zero and whose years agree,
`dtLeb` is the lexicographic comparison of `(month, day)`. -/
theorem dtLeb_date_iff {a b : DateTime} (hy : a.year = b.year)
    (ha1 : a.hour = 0) (ha2 : a.minute = 0) (ha3 : a.second = 0)
    (hb1 : b.hour = 0) (hb2 : b.minute = 0) (hb3 : b.second = 0) :
    dtLeb a b = true ↔ (a.month < b.month ∨ (a.month = b.month ∧ a.day ≤ b.day)) := by
  simp only [dtLeb, DateTime.key, hy, ha1, ha2, ha3, hb1, hb2, hb3, lexLeNat]
  split_ifs <;> (first | (simp_all; done) | (simp_all; omega))

/-! ### Calendar arithmetic (the validation done by `datetime.strptime` /
the `datetime` constructor) -/

def isLeap (y : Nat) : Bool :=
  (y % 4 = 0 && y % 100 ≠ 0) || y % 400 = 0

def daysInMonth (y m : Nat) : Nat :=
  if m = 2 then (if isLeap y then 29 else 28)
  else if m = 4 ∨ m = 6 ∨ m = 9 ∨ m = 11 then 30
  else 31

/-- The constraints the `datetime` constructor places on a parsed
year/month/day (the month always comes from the abbreviation table, so it is
already in `1..12`). -/
def validYMD (y _m d : Nat) : Bool :=
  1 ≤ y && 1 ≤ d && d ≤ daysInMonth y _m

/-- `%b`: the C-locale month abbreviations, matched case-insensitively. -/
def month3 (a b c : Char) : Option Nat :=
  let l := [a.toLower, b.toLower, c.toLower]
  if l = ['j', 'a', 'n'] then some 1
  else if l = ['f', 'e', 'b'] then some 2
  else if l = ['m', 'a', 'r'] then some 3
  else if l = ['a', 'p', 'r'] then some 4
  else if l = ['m', 'a', 'y'] then some 5
  else if l = ['j', 'u', 'n'] then some 6
  else if l = ['j', 'u', 'l'] then some 7
  else if l = ['a', 'u', 'g'] then some 8
  else if l = ['s', 'e', 'p'] then some 9
  else if l = ['o', 'c', 't'] then some 10
  else if l = ['n', 'o', 'v'] then some 11
  else if l = ['d', 'e', 'c'] then some 12
  else none

/-! ### `strptime` field parsers.  `strptime` compiles the format to a regex
and requires it to consume the whole input; each field parser below consumes
a prefix and returns the rest. -/

def digitVal (c : Char) : Nat :=
  c.toNat - '0'.toNat

/-- A format-string space: `\s+` (at least one whitespace character, matched
greedily; every following field starts with a non-whitespace character). -/
def eatWs1 : List Char → Option (List Char)
  | c :: rest =>
    if c.isWhitespace then some (rest.dropWhile Char.isWhitespace) else none
  | [] => none

def expectChar (c : Char) : List Char → Option (List Char)
  | x :: rest => if x = c then some rest else none
  | [] => none

/-- `%d`: `3[01]|[12]\d|0[1-9]|[1-9]` — one or two digits with value `1..31`.
When two digits are present the regex commits to both (the one-digit
alternative would leave a digit where the following literal is expected). -/
def parseDay : List Char → Option (Nat × List Char)
  | c1 :: c2 :: rest =>
    if c1.isDigit && c2.isDigit then
      let v := 10 * digitVal c1 + digitVal c2
      if 1 ≤ v && v ≤ 31 then some (v, rest) else none
    else if c1.isDigit && decide (1 ≤ digitVal c1) then
      some (digitVal c1, c2 :: rest)
    else none
  | [c1] =>
    if c1.isDigit && decide (1 ≤ digitVal c1) then some (digitVal c1, []) else none
  | [] => none

/-- `%Y`: exactly four digits. -/
def parseYear4 : List Char → Option (Nat × List Char)
  | a :: b :: c :: d :: rest =>
    if a.isDigit && b.isDigit && c.isDigit && d.isDigit then
      some (1000 * digitVal a + 100 * digitVal b + 10 * digitVal c + digitVal d, rest)
    else none
  | _ => none

/-- `%H`: `2[0-3]|[0-1]\d|\d` — one or two digits with value `0..23`. -/
def parseHour : List Char → Option (Nat × List Char)
  | c1 :: c2 :: rest =>
    if c1.isDigit && c2.isDigit then
      let v := 10 * digitVal c1 + digitVal c2
      if v ≤ 23 then some (v, rest) else none
    else if c1.isDigit then some (digitVal c1, c2 :: rest)
    else none
  | [c1] => if c1.isDigit then some (digitVal c1, []) else none
  | [] => none

/-- `strptime(s, "%b %d, %Y")` reduced to its `(year, month, day)` result. -/
def parseBDYparts (cs : List Char) : Option (Nat × Nat × Nat) :=
  match cs with
  | a :: b :: c :: rest =>
    match month3 a b c with
    | none => none
    | some m =>
      match eatWs1 rest with
      | none => none
      | some rest1 =>
        match parseDay rest1 with
        | none => none
        | some (d, rest2) =>
          match expectChar ',' rest2 with
          | none => none
          | some rest3 =>
            match eatWs1 rest3 with
            | none => none
            | some rest4 =>
              match parseYear4 rest4 with
              | none => none
              | some (y, rest5) =>
                if rest5.isEmpty && validYMD y m d then some (y, m, d) else none
  | _ => none

/-- `datetime.strptime(s, "%b %d, %Y")` (the event-pipeline date format). -/
def parseBDY (cs : List Char) : Option DateTime :=
  (parseBDYparts cs).map fun x => ⟨x.1, x.2.1, x.2.2, 0, 0, 0⟩

/-- `strptime(s, "%b %d %Y %H: +0")` reduced to `(year, month, day, hour)`. -/
def parseSteamParts (cs : List Char) : Option (Nat × Nat × Nat × Nat) :=
  match cs with
  | a :: b :: c :: rest =>
    match month3 a b c with
    | none => none
    | some m =>
      match eatWs1 rest with
      | none => none
      | some rest1 =>
        match parseDay rest1 with
        | none => none
        | some (d, rest2) =>
          match eatWs1 rest2 with
          | none => none
          | some rest3 =>
            match parseYear4 rest3 with
            | none => none
            | some (y, rest4) =>
              match eatWs1 rest4 with
              | none => none
              | some rest5 =>
                match parseHour rest5 with
                | none => none
                | some (h, rest6) =>
                  match expectChar ':' rest6 with
                  | none => none
                  | some rest7 =>
                    match eatWs1 rest7 with
                    | none => none
                    | some rest8 =>
                      match expectChar '+' rest8 with
                      | none => none
                      | some rest9 =>
                        match expectChar '0' rest9 with
                        | none => none
                        | some rest10 =>
                          if rest10.isEmpty && validYMD y m d then
                            some (y, m, d, h)
                          else none
  | _ => none

/-- `datetime.strptime(s, "%b %d %Y %H: +0")`, the price-timestamp format of
`extract_from_page_source`. -/
def parseSteamDT (cs : List Char) : Option DateTime :=
  (parseSteamParts cs).map fun x => ⟨x.1, x.2.1, x.2.2.1, x.2.2.2, 0, 0⟩

/-! ### `event_scraping.py` : the date-range parser and the event pipeline -/

/-- The separator `" - "`. -/
def sepDash : List Char := [' ', '-', ' ']

/-- The separator `", "`. -/
def commaSp : List Char := [',', ' ']

/-- `year = parts[1].split(', ')[-1].strip()` (line 25). -/
def yearOf (p1 : List Char) : List Char :=
  stripCL ((splitOnCL commaSp p1).getLastD [])

/-- `start_month`, bound only when the start fragment has exactly two
whitespace-separated tokens (lines 28-31); referencing it otherwise raises a
`NameError`, modelled as `none`. -/
def startMonthOf (p0 : List Char) : Option (List Char) :=
  match splitWs (stripCL p0) with
  | [m, _] => some m
  | _ => none

/-- `start_date_str` (lines 28-34). -/
def startDateStrOf (p0 p1 : List Char) : List Char :=
  match splitWs (stripCL p0) with
  | [m, d] => m ++ [' '] ++ d ++ commaSp ++ yearOf p1
  | _ => stripCL p0 ++ commaSp ++ yearOf p1

/-- `end_date_str` (lines 36-52): `none` models both the explicit
`return None, None` of line 50 and the `NameError` on an unbound
`start_month` in line 48 (caught by the enclosing `except`). -/
def endDateStrOf (p0 p1 : List Char) : Option (List Char) :=
  let end_str := stripCL p1
  if containsSub [','] end_str then
    match splitWs (stripCL ((splitOnCL [','] end_str).headD [])) with
    | [_, _] => some end_str
    | [d] =>
      match startMonthOf p0 with
      | some m => some (m ++ [' '] ++ d ++ commaSp ++ yearOf p1)
      | none => none
    | _ => none
  else
    some (end_str ++ commaSp ++ yearOf p1)

/-- `parse_date_range` (event_scraping.py, lines 16-62), over the character
list of the input.  All Python-level exceptions (`ValueError` from `strptime`
and the `NameError` case above) are caught by the source's `try`/`except` and
yield the failure result `(None, None)`, modelled as `none`. -/
def parseDateRangeCL (cs : List Char) : Option (DateTime × DateTime) :=
  if containsSub sepDash cs then
    match splitOnCL sepDash cs with
    | p0 :: p1 :: _ =>
      match endDateStrOf p0 p1 with
      | none => none
      | some eds =>
        match parseBDY (startDateStrOf p0 p1), parseBDY eds with
        | some start_date, some end_date => some (start_date, end_date)
        | _, _ => none
    | _ => none
  else
    none                              -- falls through to `return None, None`

/-- `parse_date_range` at the `String` interface. -/
def parse_date_range (date_str : String) : Option (DateTime × DateTime) :=
  parseDateRangeCL date_str.data

/-- One scraped event row (the dict built in `scrape_tournaments`). -/
structure Tournament where
  tournament_name : String
  start_date : DateTime
  end_date : DateTime
  date_range : String
  prize_pool : String
  location : String
deriving DecidableEq

/-- The per-row record construction of `scrape_tournaments`
(event_scraping.py, lines 122-145): the row is produced only when
`parse_date_range` returns both dates. -/
def buildTournamentRow (name date_str prize loc : String) : Option Tournament :=
  match parse_date_range date_str with
  | some (s, e) => some ⟨name, s, e, date_str, prize, loc⟩
  | none => none

/-- Comparison by start date, the key of `filtered.sort` in
`filter_last_year`. -/
def startLeb (a b : Tournament) : Bool :=
  dtLeb a.start_date b.start_date

/-- `filter_last_year` (event_scraping.py, lines 153-167), with the
`datetime.now() - timedelta(days=365)` cutoff passed explicitly.  Python's
`list.sort` is stable, as is `List.mergeSort`. -/
def filter_last_year (tournaments : List Tournament) (one_year_ago : DateTime) :
    List Tournament :=
  let filtered := tournaments.filter fun t => dtLeb one_year_ago t.end_date
  filtered.mergeSort startLeb

/-! ### `steam_weapon_cases_scraper.py` : decoded JSON values and the
Python conversions applied to them -/

/-- A decoded JSON scalar as found in the `line1` array (the source data only
contains numbers and strings in the triples).  JSON numbers are modelled as
rationals; only parsing and comparison are ever applied to them. -/
inductive JVal where
  | num (q : ℚ)
  | str (s : String)
deriving DecidableEq

/-- Numeric value of a digit run. -/
def digitsVal : List Char → Nat
  | [] => 0
  | c :: rest => digitsVal rest + digitVal c * 10 ^ rest.length

/-- The unsigned part of Python `float(str)`: `digits`, `digits.`,
`digits.digits` or `.digits` (the exponent and `inf`/`nan` forms never occur
in this data and are not modelled). -/
def floatCore (cs : List Char) : Option ℚ :=
  let intPart := cs.takeWhile Char.isDigit
  match cs.dropWhile Char.isDigit with
  | [] => if intPart.isEmpty then none else some (digitsVal intPart)
  | '.' :: fr =>
    let frac := fr.takeWhile Char.isDigit
    if (fr.dropWhile Char.isDigit).isEmpty then
      if intPart.isEmpty && frac.isEmpty then none
      else some ((digitsVal intPart : ℚ) + (digitsVal frac : ℚ) / (10 ^ frac.length : ℚ))
    else none
  | _ => none

/-- Python `float(s)` on a string: surrounding whitespace and an optional
sign, then a decimal literal. -/
def pyFloatStr (cs : List Char) : Option ℚ :=
  match stripCL cs with
  | '+' :: r => floatCore r
  | '-' :: r => (floatCore r).map Neg.neg
  | r => floatCore r

/-- Python `int(s)` on a string: surrounding whitespace, an optional sign and
a non-empty digit run. -/
def pyIntStr (cs : List Char) : Option Int :=
  let core : List Char → Option Int := fun r =>
    if r.isEmpty || !(r.all Char.isDigit) then none else some (digitsVal r)
  match stripCL cs with
  | '+' :: r => core r
  | '-' :: r => (core r).map Neg.neg
  | r => core r

/-- Python `float(x)` on a decoded JSON value. -/
def pyFloat : JVal → Option ℚ
  | .num q => some q
  | .str s => pyFloatStr s.data

/-- Python `int(x)` on a decoded JSON value (`int` truncates a float toward
zero). -/
def pyIntJ : JVal → Option Int
  | .num q => some (q.num.tdiv q.den)
  | .str s => pyIntStr s.data

/-- `strptime` requires its argument to be a `str`; any other value raises
(`TypeError`), which the per-tuple `except` swallows. -/
def asStr : JVal → Option String
  | .num _ => none
  | .str s => some s

/-- A price observation, the dict appended to `parsed_data` in
`extract_from_page_source`. -/
structure Obs where
  item_name : String
  date : DateTime
  price : ℚ
  volume : Int
deriving DecidableEq

/-- `volume = int(entry[2]) if len(entry) > 2 else 0` (line 183), applied to
`entry[2:]`. -/
def volumeField : List JVal → Option Int
  | [] => some 0
  | e2 :: _ => pyIntJ e2

/-- The conversions inside the per-tuple `try` of `extract_from_page_source`
(lines 179-186): `float(entry[1])`, `int(entry[2]) if len(entry) > 2 else 0`,
and `strptime(entry[0], "%b %d %Y %H: +0")`.  Failure of any conversion (or a
tuple with fewer than two elements) aborts only this tuple. -/
def convEntryParts : List JVal → Option (DateTime × ℚ × Int)
  | e0 :: e1 :: rest =>
    (pyFloat e1).bind fun price =>
      (volumeField rest).bind fun volume =>
        (asStr e0).bind fun ds =>
          (parseSteamDT ds.data).map fun dt => (dt, price, volume)
  | _ => none

/-- The observation built from one raw tuple, named by the enclosing entry. -/
def convEntry (item_name : String) (e : List JVal) : Option Obs :=
  (convEntryParts e).map fun x => ⟨item_name, x.1, x.2.1, x.2.2⟩

/-- The body of the `for entry in price_data` loop: the converted observation
is kept only when its timestamp passes the rolling-window filter
(`date_obj >= self.one_year_ago`, line 189). -/
def keepEntry (item_name : String) (one_year_ago : DateTime) (e : List JVal) :
    Option Obs :=
  (convEntry item_name e).bind fun o =>
    if dtLeb one_year_ago o.date then some o else none

/-- `extract_from_page_source` (lines 151-215) from the point where the
embedded `line1` array literal has been located and JSON-decoded into
`price_data`; the regex search over the raw HTML and `json.loads` belong to
the external libraries, and their failure cases also return `None` in the
source.  An empty decoded array returns `None` (line 174), and so does an
empty filtered result (line 204). -/
def extract_from_page_source (price_data : List (List JVal))
    (item_name : String) (one_year_ago : DateTime) : Option (List Obs) :=
  if price_data.isEmpty then none
  else if (price_data.filterMap (keepEntry item_name one_year_ago)).isEmpty then
    none
  else
    some (price_data.filterMap (keepEntry item_name one_year_ago))

/-- `self.rate_limit_backoff` (line 35). -/
def rate_limit_backoff : Nat := 60

/-- One HTTP response to a market-page request: the status code, and (when
the status is 200) the decoded `line1` payload of the returned page. -/
structure Resp where
  status : Nat
  body : List (List JVal)
deriving DecidableEq

/-- `get_price_history` (lines 108-149) as a function of the sequence of
responses the server produces for the successive attempts; the returned pair
is (result, list of backoff sleep durations in seconds).  A 429 response with
`retry_count < max_retries` sleeps `rate_limit_backoff * (retry_count + 1)`
seconds and retries; a 429 at the retry ceiling and any other non-200 status
return `None`; a 200 response is handed to `extract_from_page_source`.  An
exhausted response list models a network exception, caught at line 147.  The
randomized 1-2s cooldown after a success (line 142) is not a backoff sleep
and is not tracked. -/
def get_price_history (item_name : String) (one_year_ago : DateTime) :
    List Resp → Nat → Nat → Option (List Obs) × List Nat
  | [], _, _ => (none, [])
  | r :: rest, retry_count, max_retries =>
    if r.status = 429 then
      if retry_count < max_retries then
        let p := get_price_history item_name one_year_ago rest (retry_count + 1) max_retries
        (p.1, rate_limit_backoff * (retry_count + 1) :: p.2)
      else (none, [])
    else if r.status ≠ 200 then (none, [])
    else (extract_from_page_source r.body item_name one_year_ago, [])

/-! ### Catalog enumeration (`get_items_from_page` results and the
cross-page deduplication of `scrape_multiple_pages`, lines 253-267) -/

/-- One catalog entry reference as built in `get_items_from_page`. -/
structure Item where
  name : String
  url : String
deriving DecidableEq

/-- The `for item in items` dedup loop (lines 261-264): `existing_names` is
the mutated name set (membership is all that is used, so a list models the
Python `set`), `new_items` the accumulator. -/
def addNewItems (existing_names : List String) (new_items : List Item) :
    List Item → List String × List Item
  | [] => (existing_names, new_items)
  | item :: rest =>
    if item.name ∈ existing_names then addNewItems existing_names new_items rest
    else addNewItems (existing_names ++ [item.name]) (new_items ++ [item]) rest

/-- The page accumulation of Step 1 of `scrape_multiple_pages` (lines
253-267): for each page's item list, `existing_names` is rebuilt from
`all_items` and the new (unseen) items are appended. -/
def collectItems (pages : List (List Item)) : List Item :=
  pages.foldl
    (fun all_items items =>
      if items.isEmpty then all_items
      else all_items ++ (addNewItems (all_items.map Item.name) [] items).2)
    []

/-- Specification-level first-occurrence dedup, proved equal to
`collectItems` below. -/
def dedupFirst (seen : List String) : List Item → List Item
  | [] => []
  | i :: rest =>
    if i.name ∈ seen then dedupFirst seen rest
    else i :: dedupFirst (i.name :: seen) rest

/-! ### The incremental aggregator/persister
(Step 2 of `scrape_multiple_pages`, lines 287-316, and Step 3, lines
317-342) -/

/-- A persisted CSV row: `temp_df[['item_name', 'date', 'price']]`
(lines 304 and 326 drop the volume column). -/
structure Row where
  item_name : String
  date : DateTime
  price : ℚ
deriving DecidableEq

def projectRow (o : Obs) : Row :=
  ⟨o.item_name, o.date, o.price⟩

def projectRows (l : List Obs) : List Row :=
  l.map projectRow

/-- The `sort_values(['item_name', 'date'])` key: entry identifier first,
timestamp second. -/
def rowLeb (a b : Row) : Bool :=
  if a.item_name = b.item_name then dtLeb a.date b.date
  else decide (a.item_name < b.item_name)

/-- `Row` order as a proposition. -/
def rowLe (a b : Row) : Prop :=
  rowLeb a b = true

/-- `df.sort_values(['item_name', 'date'])`. -/
def sortRows (l : List Row) : List Row :=
  l.mergeSort rowLeb

/-- One iteration of the Step-2 loop (lines 290-315): fetch the entry's price
history; on a truthy (non-`None`, non-empty) result extend `all_price_data`
and write the full sorted snapshot; otherwise leave the state unchanged.  The
state is `(all_price_data, list of snapshots written so far)`. -/
def scrapeStep (one_year_ago : DateTime) (st : List Obs × List (List Row))
    (inp : String × List Resp) : List Obs × List (List Row) :=
  match (get_price_history inp.1 one_year_ago inp.2 0 3).1 with
  | some price_data =>
    if price_data.isEmpty then st
    else
      let all := st.1 ++ price_data
      (all, st.2 ++ [sortRows (projectRows all)])
  | none => st

/-- Step 2 of `scrape_multiple_pages` run over the whole entry list, each
entry paired with the response sequence the server gives it. -/
def scrapeLoop (inputs : List (String × List Resp)) (one_year_ago : DateTime) :
    List Obs × List (List Row) :=
  inputs.foldl (scrapeStep one_year_ago) ([], [])

/-- The successful entries, each with its (non-empty) extracted data. -/
def successResults (one_year_ago : DateTime)
    (inputs : List (String × List Resp)) : List (String × List Obs) :=
  inputs.filterMap fun inp =>
    match (get_price_history inp.1 one_year_ago inp.2 0 3).1 with
    | some l => if l.isEmpty then none else some (inp.1, l)
    | none => none

/-- The sequence of snapshots written to the CSV sink, one per successful
entry. -/
def snapshotsOf (inputs : List (String × List Resp)) (one_year_ago : DateTime) :
    List (List Row) :=
  (scrapeLoop inputs one_year_ago).2

/-- All accumulated observations at the end of the run. -/
def collectedData (inputs : List (String × List Resp)) (one_year_ago : DateTime) :
    List Obs :=
  (scrapeLoop inputs one_year_ago).1

/-- The final Step-3 write (lines 323-330): the whole collection, projected
and sorted. -/
def finalTable (inputs : List (String × List Resp)) (one_year_ago : DateTime) :
    List Row :=
  sortRows (projectRows (collectedData inputs one_year_ago))

/-- The set of entry identifiers appearing in a written table. -/
def rowNames (l : List Row) : Finset String :=
  (l.map Row.item_name).toFinset

/-! ### Order lemmas for the persisted-table sort key -/

theorem rowLeb_total (a b : Row) : rowLeb a b || rowLeb b a := by
  by_cases h : a.item_name = b.item_name
  · simpa [rowLeb, h] using dtLeb_total a.date b.date
  · have h' : ¬ b.item_name = a.item_name := fun hba => h hba.symm
    simp only [rowLeb, h, h', if_false, Bool.or_eq_true, decide_eq_true_eq]
    rcases lt_trichotomy a.item_name b.item_name with hlt | heq | hgt
    · exact Or.inl hlt
    · exact absurd heq h
    · exact Or.inr hgt

theorem rowLeb_trans {a b c : Row}
    (h1 : rowLeb a b = true) (h2 : rowLeb b c = true) : rowLeb a c = true := by
  by_cases hab : a.item_name = b.item_name <;>
    by_cases hbc : b.item_name = c.item_name
  · simp only [rowLeb, hab, if_pos rfl] at h1
    simp only [rowLeb, hbc, if_pos rfl] at h2
    simp only [rowLeb, hab.trans hbc, if_pos rfl]
    exact dtLeb_trans h1 h2
  · have hac : ¬ a.item_name = c.item_name := fun h => hbc (hab.symm.trans h)
    simp only [rowLeb, hbc, if_neg hbc, decide_eq_true_eq] at h2
    simp only [rowLeb, hac, if_neg hac, decide_eq_true_eq]
    exact hab ▸ h2
  · have hac : ¬ a.item_name = c.item_name := fun h => hab (h.trans hbc.symm)
    simp only [rowLeb, hab, if_neg hab, decide_eq_true_eq] at h1
    simp only [rowLeb, hac, if_neg hac, decide_eq_true_eq]
    exact hbc ▸ h1
  · simp only [rowLeb, if_neg hab, decide_eq_true_eq] at h1
    simp only [rowLeb, if_neg hbc, decide_eq_true_eq] at h2
    have hac : a.item_name < c.item_name := lt_trans h1 h2
    simp only [rowLeb, if_neg (ne_of_lt hac), decide_eq_true_eq]
    exact hac

theorem sortRows_sorted (l : List Row) : (sortRows l).Pairwise rowLe :=
  @List.sorted_mergeSort Row rowLeb
    (fun _ _ _ h1 h2 => rowLeb_trans h1 h2) (fun a b => rowLeb_total a b) l

theorem sortRows_of_sorted {l : List Row} (h : l.Pairwise rowLe) :
    sortRows l = l :=
  List.mergeSort_of_sorted h

theorem sortRows_idem (l : List Row) : sortRows (sortRows l) = sortRows l :=
  sortRows_of_sorted (sortRows_sorted l)

theorem sortRows_perm (l : List Row) : List.Perm (sortRows l) l :=
  List.mergeSort_perm l rowLeb

theorem sortRows_coe (l : List Row) :
    ((sortRows l : List Row) : Multiset Row) = (l : Multiset Row) :=
  Multiset.coe_eq_coe.mpr (sortRows_perm l)

theorem mem_sortRows {r : Row} {l : List Row} : r ∈ sortRows l ↔ r ∈ l :=
  List.mem_mergeSort

/-! ### Extractor lemmas -/

theorem keepEntry_eq_some {item : String} {c : DateTime} {e : List JVal}
    {o : Obs} :
    keepEntry item c e = some o ↔
      (convEntry item e = some o ∧ dtLeb c o.date = true) := by
  unfold keepEntry
  constructor
  · intro h
    obtain ⟨a, ha, hif⟩ := Option.bind_eq_some.mp h
    by_cases hw : dtLeb c a.date = true
    · rw [if_pos hw] at hif
      cases Option.some.inj hif
      exact ⟨ha, hw⟩
    · rw [if_neg hw] at hif
      cases hif
  · rintro ⟨ha, hw⟩
    exact Option.bind_eq_some.mpr ⟨o, ha, by rw [if_pos hw]⟩

theorem convEntry_name {item : String} {e : List JVal} {o : Obs}
    (h : convEntry item e = some o) : o.item_name = item := by
  unfold convEntry at h
  cases hp : convEntryParts e with
  | none => rw [hp] at h; cases h
  | some x => rw [hp] at h; cases Option.some.inj h; rfl

/-- The raw price field of a tuple as the extractor converts it
(`float(entry[1])`). -/
def priceField : List JVal → Option ℚ
  | _ :: e1 :: _ => pyFloat e1
  | _ => none

/-- Whether the raw price field, when it converts at all, is positive. -/
def priceFieldPos (e : List JVal) : Bool :=
  match priceField e with
  | some q => decide (0 < q)
  | none => true

theorem convEntryParts_price {e : List JVal} {x : DateTime × ℚ × Int}
    (h : convEntryParts e = some x) : priceField e = some x.2.1 := by
  match e with
  | [] => cases h
  | [_] => cases h
  | e0 :: e1 :: rest =>
    simp only [convEntryParts, Option.bind_eq_some, Option.map_eq_some'] at h
    obtain ⟨price, hp, volume, -, ds, -, dt, -, hx⟩ := h
    subst hx
    simpa [priceField] using hp

theorem convEntry_price {item : String} {e : List JVal} {o : Obs}
    (h : convEntry item e = some o) : priceField e = some o.price := by
  unfold convEntry at h
  cases hp : convEntryParts e with
  | none => rw [hp] at h; cases h
  | some x =>
    rw [hp] at h
    cases Option.some.inj h
    exact convEntryParts_price hp

theorem extract_eq_some {pd : List (List JVal)} {item : String} {c : DateTime}
    {l : List Obs} (h : extract_from_page_source pd item c = some l) :
    l = pd.filterMap (keepEntry item c) ∧ l ≠ [] := by
  simp only [extract_from_page_source] at h
  split_ifs at h with h1 h2
  exact ⟨(Option.some.inj h).symm,
    fun hnil => h2 (by rw [Option.some.inj h, hnil]; rfl)⟩

theorem extract_mem {pd : List (List JVal)} {item : String} {c : DateTime}
    {l : List Obs} {o : Obs} (h : extract_from_page_source pd item c = some l)
    (ho : o ∈ l) :
    o.item_name = item ∧ dtLeb c o.date = true := by
  obtain ⟨hl, -⟩ := extract_eq_some h
  subst hl
  obtain ⟨e, -, hk⟩ := List.mem_filterMap.mp ho
  obtain ⟨hc, hw⟩ := keepEntry_eq_some.mp hk
  exact ⟨convEntry_name hc, hw⟩

theorem get_price_history_fst_some {item : String} {c : DateTime} :
    ∀ (rs : List Resp) (rc mx : Nat) {l : List Obs},
      (get_price_history item c rs rc mx).1 = some l →
      ∃ r ∈ rs, r.status = 200 ∧ extract_from_page_source r.body item c = some l
  | [], _, _, _, h => by simp [get_price_history] at h
  | r :: rest, rc, mx, l, h => by
    by_cases h429 : r.status = 429
    · by_cases hrc : rc < mx
      · rw [get_price_history, if_pos h429, if_pos hrc] at h
        obtain ⟨r', hr', hok⟩ := get_price_history_fst_some rest (rc + 1) mx h
        exact ⟨r', List.mem_cons_of_mem _ hr', hok⟩
      · rw [get_price_history, if_pos h429, if_neg hrc] at h
        cases h
    · by_cases h200 : r.status = 200
      · rw [get_price_history, if_neg h429] at h
        simp only [h200, ne_eq, not_true_eq_false, if_false] at h
        exact ⟨r, List.mem_cons_self _ _, h200, h⟩
      · rw [get_price_history, if_neg h429, if_pos h200] at h
        cases h

/-! ### Aggregator lemmas -/

theorem successResults_mem {c : DateTime} {inputs : List (String × List Resp)}
    {n : String} {l : List Obs} (h : (n, l) ∈ successResults c inputs) :
    l ≠ [] ∧ ∀ o ∈ l, o.item_name = n ∧ dtLeb c o.date = true := by
  obtain ⟨inp, -, hf⟩ := List.mem_filterMap.mp h
  cases hg : (get_price_history inp.1 c inp.2 0 3).1 with
  | none =>
    simp only [hg] at hf
    exact Option.noConfusion hf
  | some l' =>
    simp only [hg] at hf
    by_cases hie : l'.isEmpty
    · rw [if_pos hie] at hf
      exact Option.noConfusion hf
    · rw [if_neg hie] at hf
      injection (Option.some.inj hf) with hn hl
      subst hn
      subst hl
      obtain ⟨r, -, -, hex⟩ := get_price_history_fst_some inp.2 0 3 hg
      refine ⟨fun hnil => hie (by rw [hnil]; rfl), fun o ho => ?_⟩
      exact extract_mem hex ho

theorem successResults_fst_sublist (c : DateTime) :
    ∀ inputs : List (String × List Resp),
      List.Sublist ((successResults c inputs).map Prod.fst) (inputs.map Prod.fst)
  | [] => by simp [successResults]
  | inp :: rest => by
    have ih := successResults_fst_sublist c rest
    cases hg : (get_price_history inp.1 c inp.2 0 3).1 with
    | none =>
      have hs : successResults c (inp :: rest) = successResults c rest := by
        simp [successResults, List.filterMap_cons, hg]
      rw [hs, List.map_cons]
      exact ih.cons inp.1
    | some l' =>
      by_cases hie : l'.isEmpty
      · have hnil : l' = [] := by
          cases l' with
          | nil => rfl
          | cons x xs => exact absurd hie (by simp)
        have hs : successResults c (inp :: rest) = successResults c rest := by
          simp [successResults, List.filterMap_cons, hg, hnil]
        rw [hs, List.map_cons]
        exact ih.cons inp.1
      · have hne : l' ≠ [] := fun hnil => hie (by rw [hnil]; rfl)
        have hs : successResults c (inp :: rest)
            = (inp.1, l') :: successResults c rest := by
          simp [successResults, List.filterMap_cons, hg, hne]
        rw [hs, List.map_cons, List.map_cons]
        exact ih.cons₂ inp.1

theorem scrapeLoop_go (c : DateTime) :
    ∀ (inputs : List (String × List Resp)) (a : List Obs)
      (snaps : List (List Row)),
      inputs.foldl (scrapeStep c) (a, snaps) =
        (a ++ ((successResults c inputs).map Prod.snd).flatten,
         snaps ++ (List.range (successResults c inputs).length).map
           (fun i => sortRows (projectRows
             (a ++ (((successResults c inputs).take (i + 1)).map Prod.snd).flatten))))
  | [], a, snaps => by simp [successResults]
  | inp :: rest, a, snaps => by
    rw [List.foldl_cons]
    cases hg : (get_price_history inp.1 c inp.2 0 3).1 with
    | none =>
      have hstep : scrapeStep c (a, snaps) inp = (a, snaps) := by
        simp [scrapeStep, hg]
      rw [hstep, scrapeLoop_go c rest a snaps]
      simp only [successResults, List.filterMap_cons, hg]
    | some pdata =>
      by_cases hie : pdata.isEmpty
      · have hstep : scrapeStep c (a, snaps) inp = (a, snaps) := by
          simp [scrapeStep, hg, hie]
        rw [hstep, scrapeLoop_go c rest a snaps]
        simp only [successResults, List.filterMap_cons, hg, if_pos hie]
      · have hne : pdata ≠ [] := fun hnil => hie (by rw [hnil]; rfl)
        have hstep : scrapeStep c (a, snaps) inp
            = (a ++ pdata, snaps ++ [sortRows (projectRows (a ++ pdata))]) := by
          simp [scrapeStep, hg, hie, hne]
        rw [hstep, scrapeLoop_go c rest (a ++ pdata)
          (snaps ++ [sortRows (projectRows (a ++ pdata))])]
        have hsucc : successResults c (inp :: rest)
            = (inp.1, pdata) :: successResults c rest := by
          simp [successResults, List.filterMap_cons, hg, hie, hne]
        rw [hsucc]
        simp [List.range_succ_eq_map, List.map_map, Function.comp,
          List.take_succ_cons, List.append_assoc]

theorem scrapeLoop_eq (inputs : List (String × List Resp)) (c : DateTime) :
    scrapeLoop inputs c =
      (((successResults c inputs).map Prod.snd).flatten,
       (List.range (successResults c inputs).length).map
         (fun i => sortRows (projectRows
           ((((successResults c inputs).take (i + 1)).map Prod.snd).flatten)))) := by
  simpa [scrapeLoop] using scrapeLoop_go c inputs [] []

theorem collectedData_eq (inputs : List (String × List Resp)) (c : DateTime) :
    collectedData inputs c = ((successResults c inputs).map Prod.snd).flatten := by
  simp [collectedData, scrapeLoop_eq]

theorem snapshotsOf_eq (inputs : List (String × List Resp)) (c : DateTime) :
    snapshotsOf inputs c =
      (List.range (successResults c inputs).length).map
        (fun i => sortRows (projectRows
          ((((successResults c inputs).take (i + 1)).map Prod.snd).flatten))) := by
  simp [snapshotsOf, scrapeLoop_eq]

theorem snapshotsOf_getD {inputs : List (String × List Resp)} {c : DateTime}
    {k : Nat} (hk : k < (successResults c inputs).length) :
    (snapshotsOf inputs c).getD k [] =
      sortRows (projectRows
        ((((successResults c inputs).take (k + 1)).map Prod.snd).flatten)) := by
  rw [snapshotsOf_eq, List.getD_eq_getElem?_getD, List.getElem?_map,
    List.getElem?_range hk]
  rfl

theorem snapshotsOf_length (inputs : List (String × List Resp)) (c : DateTime) :
    (snapshotsOf inputs c).length = (successResults c inputs).length := by
  simp [snapshotsOf_eq]

theorem successResults_flatten_mem {c : DateTime}
    {inputs : List (String × List Resp)} {m : Nat} {o : Obs}
    (ho : o ∈ (((successResults c inputs).take m).map Prod.snd).flatten) :
    o.item_name ∈ ((successResults c inputs).take m).map Prod.fst
      ∧ dtLeb c o.date = true := by
  obtain ⟨ldata, hld, ho2⟩ := List.mem_flatten.mp ho
  obtain ⟨p, hp, hsnd⟩ := List.mem_map.mp hld
  have hmem : (p.1, p.2) ∈ successResults c inputs :=
    (List.take_sublist m _).subset hp
  obtain ⟨-, hall⟩ := successResults_mem hmem
  obtain ⟨hname, hwin⟩ := hall o (by rw [hsnd]; exact ho2)
  exact ⟨by rw [hname]; exact List.mem_map.mpr ⟨p, hp, rfl⟩, hwin⟩

theorem collectedData_window {c : DateTime}
    {inputs : List (String × List Resp)} {o : Obs}
    (ho : o ∈ collectedData inputs c) : dtLeb c o.date = true := by
  rw [collectedData_eq, ← List.take_length (successResults c inputs)] at ho
  exact (successResults_flatten_mem ho).2

theorem finalTable_window {c : DateTime}
    {inputs : List (String × List Resp)} {r : Row}
    (hr : r ∈ finalTable inputs c) : dtLeb c r.date = true := by
  rw [finalTable] at hr
  obtain ⟨o, ho, hro⟩ := List.mem_map.mp (mem_sortRows.mp hr)
  rw [← hro]
  exact collectedData_window ho

theorem snapshot_window {c : DateTime} {inputs : List (String × List Resp)}
    {k : Nat} {r : Row} (hr : r ∈ (snapshotsOf inputs c).getD k []) :
    dtLeb c r.date = true := by
  by_cases hk : k < (successResults c inputs).length
  · rw [snapshotsOf_getD hk] at hr
    obtain ⟨o, ho, hro⟩ := List.mem_map.mp (mem_sortRows.mp hr)
    rw [← hro]
    exact (successResults_flatten_mem ho).2
  · rw [List.getD_eq_getElem?_getD, List.getElem?_eq_none] at hr
    · cases hr
    · rw [snapshotsOf_length]
      exact Nat.le_of_not_lt hk

theorem snapshot_sorted (inputs : List (String × List Resp)) (c : DateTime)
    (k : Nat) : ((snapshotsOf inputs c).getD k []).Pairwise rowLe := by
  by_cases hk : k < (successResults c inputs).length
  · rw [snapshotsOf_getD hk]
    exact sortRows_sorted _
  · rw [List.getD_eq_getElem?_getD, List.getElem?_eq_none]
    · exact List.Pairwise.nil
    · rw [snapshotsOf_length]
      exact Nat.le_of_not_lt hk

theorem rowNames_perm {l1 l2 : List Row} (h : List.Perm l1 l2) :
    rowNames l1 = rowNames l2 := by
  ext a
  simp [rowNames, List.mem_toFinset, (h.map Row.item_name).mem_iff]

/-- In a duplicate-free list, the element at position `j` does not occur
among the first `j` elements. -/
theorem getElem_not_mem_take {α : Type} {L : List α} (hN : L.Nodup)
    {j : Nat} (hj : j < L.length) : L[j] ∉ L.take j := by
  intro hmem
  have hsplit : L.take j ++ L.drop j = L := List.take_append_drop j L
  rw [← hsplit] at hN
  obtain ⟨-, -, hdisj⟩ := List.nodup_append.mp hN
  exact hdisj hmem (by rw [List.drop_eq_getElem_cons hj]; exact List.mem_cons_self _ _)

theorem rowNames_append (l1 l2 : List Row) :
    rowNames (l1 ++ l2) = rowNames l1 ∪ rowNames l2 := by
  simp [rowNames, List.toFinset_append]

theorem mem_rowNames {n : String} {l : List Row} :
    n ∈ rowNames l ↔ ∃ r ∈ l, r.item_name = n := by
  simp [rowNames, List.mem_toFinset]

theorem take_succ_getElem {α : Type} (S : List α) {k : Nat}
    (hk : k < S.length) : S.take (k + 1) = S.take k ++ [S[k]] := by
  rw [List.take_succ, List.getElem?_eq_getElem hk]
  rfl

theorem snapshot_mono {inputs : List (String × List Resp)} {c : DateTime}
    {k : Nat} (hnd : (inputs.map Prod.fst).Nodup)
    (hk : k + 1 < (successResults c inputs).length) :
    (((snapshotsOf inputs c).getD k []) : Multiset Row)
        ≤ (((snapshotsOf inputs c).getD (k + 1) []) : Multiset Row)
      ∧ rowNames ((snapshotsOf inputs c).getD k [])
        ⊂ rowNames ((snapshotsOf inputs c).getD (k + 1) []) := by
  have hk0 : k < (successResults c inputs).length := Nat.lt_of_succ_lt hk
  have hSnd : ((successResults c inputs).map Prod.fst).Nodup :=
    hnd.sublist (successResults_fst_sublist c inputs)
  set S := successResults c inputs with hS
  have htake : S.take (k + 2) = S.take (k + 1) ++ [S[k + 1]] :=
    take_succ_getElem S hk
  have hflat : (((S.take (k + 2)).map Prod.snd).flatten)
      = ((S.take (k + 1)).map Prod.snd).flatten ++ S[k + 1].2 := by
    rw [htake, List.map_append, List.flatten_append]
    simp
  have hA : (snapshotsOf inputs c).getD k []
      = sortRows (projectRows (((S.take (k + 1)).map Prod.snd).flatten)) :=
    snapshotsOf_getD hk0
  have hB : (snapshotsOf inputs c).getD (k + 1) []
      = sortRows (projectRows (((S.take (k + 2)).map Prod.snd).flatten)) :=
    snapshotsOf_getD hk
  have hBsplit : projectRows (((S.take (k + 2)).map Prod.snd).flatten)
      = projectRows (((S.take (k + 1)).map Prod.snd).flatten)
        ++ projectRows S[k + 1].2 := by
    rw [hflat]
    exact List.map_append _ _ _
  constructor
  · rw [hA, hB, hBsplit]
    calc ((sortRows (projectRows (((S.take (k + 1)).map Prod.snd).flatten)) : List Row) : Multiset Row)
        = (projectRows (((S.take (k + 1)).map Prod.snd).flatten) : Multiset Row) :=
          sortRows_coe _
      _ ≤ (projectRows (((S.take (k + 1)).map Prod.snd).flatten) : Multiset Row)
            + (projectRows S[k + 1].2 : Multiset Row) := Multiset.le_add_right _ _
      _ = ((projectRows (((S.take (k + 1)).map Prod.snd).flatten)
            ++ projectRows S[k + 1].2 : List Row) : Multiset Row) := by
          rw [← Multiset.coe_add]
      _ = ((sortRows (projectRows (((S.take (k + 1)).map Prod.snd).flatten)
            ++ projectRows S[k + 1].2) : List Row) : Multiset Row) :=
          (sortRows_coe _).symm
  · rw [hA, hB]
    have hpermA := rowNames_perm (sortRows_perm
      (projectRows (((S.take (k + 1)).map Prod.snd).flatten)))
    have hpermB := rowNames_perm (sortRows_perm
      (projectRows (((S.take (k + 2)).map Prod.snd).flatten)))
    rw [hpermA, hpermB, hBsplit, rowNames_append]
    have hmemS : S[k + 1] ∈ S := List.getElem_mem _
    have hmemS' : (S[k + 1].1, S[k + 1].2) ∈ S := hmemS
    obtain ⟨hne, hall⟩ := @successResults_mem c inputs _ _ hmemS'
    obtain ⟨o, ho⟩ := List.exists_mem_of_ne_nil _ hne
    have honame : o.item_name = S[k + 1].1 := (hall o ho).1
    have hin : S[k + 1].1 ∈ rowNames (projectRows S[k + 1].2) :=
      mem_rowNames.mpr ⟨projectRow o, List.mem_map.mpr ⟨o, ho, rfl⟩, honame⟩
    have hnotin : S[k + 1].1 ∉ rowNames
        (projectRows (((S.take (k + 1)).map Prod.snd).flatten)) := by
      intro hmem
      obtain ⟨r, hr, hrn⟩ := mem_rowNames.mp hmem
      obtain ⟨o', ho', hro'⟩ := List.mem_map.mp hr
      have hon : o'.item_name ∈ ((S.take (k + 1)).map Prod.fst) :=
        (successResults_flatten_mem (hS ▸ ho')).1
      have hon2 : o'.item_name = S[k + 1].1 := by
        rw [← hrn, ← hro']
        rfl
      rw [hon2] at hon
      have hmap : ((S.take (k + 1)).map Prod.fst)
          = (S.map Prod.fst).take (k + 1) := List.map_take _ _ _
      rw [hmap] at hon
      have hlen : k + 1 < (S.map Prod.fst).length := by
        rw [List.length_map]; exact hk
      have hgm : (S.map Prod.fst)[k + 1] = S[k + 1].1 := List.getElem_map _
      exact getElem_not_mem_take hSnd hlen (hgm ▸ hon)
    refine (Finset.ssubset_iff_of_subset Finset.subset_union_left).mpr
      ⟨S[k + 1].1, Finset.mem_union_right _ hin, hnotin⟩

theorem snapshotsOf_getLast {inputs : List (String × List Resp)} {c : DateTime}
    (hne : (successResults c inputs).length ≠ 0) :
    (snapshotsOf inputs c).getLast? = some (finalTable inputs c) := by
  set N := (successResults c inputs).length with hN
  have hpos : 0 < N := Nat.pos_of_ne_zero hne
  have hlt : N - 1 < N := Nat.sub_lt hpos Nat.one_pos
  rw [snapshotsOf_eq, List.getLast?_eq_getElem?]
  have hlen : ((List.range N).map
      (fun i => sortRows (projectRows
        ((((successResults c inputs).take (i + 1)).map Prod.snd).flatten)))).length
      = N := by
    rw [List.length_map, List.length_range]
  rw [hlen, List.getElem?_map, List.getElem?_range hlt]
  have hsucc : N - 1 + 1 = N := Nat.succ_pred_eq_of_pos hpos
  simp only [Option.map_some']
  rw [hsucc, hN, List.take_length, finalTable, collectedData_eq]

/-! ### Event-parser structure lemmas -/

theorem parseBDY_time {cs : List Char} {d : DateTime} (h : parseBDY cs = some d) :
    d.hour = 0 ∧ d.minute = 0 ∧ d.second = 0 := by
  obtain ⟨x, -, hx⟩ := Option.map_eq_some'.mp h
  rw [← hx]
  exact ⟨rfl, rfl, rfl⟩

theorem parse_date_range_time {s : String} {a b : DateTime}
    (h : parse_date_range s = some (a, b)) :
    (a.hour = 0 ∧ a.minute = 0 ∧ a.second = 0)
      ∧ (b.hour = 0 ∧ b.minute = 0 ∧ b.second = 0) := by
  unfold parse_date_range parseDateRangeCL at h
  split at h <;> try exact Option.noConfusion h
  split at h <;> try exact Option.noConfusion h
  split at h <;> try exact Option.noConfusion h
  split at h <;> try exact Option.noConfusion h
  next d1 d2 heq1 heq2 =>
    injection Option.some.inj h with h1 h2
    subst h1
    subst h2
    exact ⟨parseBDY_time heq1, parseBDY_time heq2⟩

/-! ### Dedup lemmas for the catalog enumerator -/

theorem dedupFirst_cons_of_mem {i : Item} {s : List String} (l : List Item)
    (hm : i.name ∈ s) : dedupFirst s (i :: l) = dedupFirst s l := by
  simp [dedupFirst, hm]

theorem dedupFirst_cons_of_not_mem {i : Item} {s : List String} (l : List Item)
    (hm : i.name ∉ s) :
    dedupFirst s (i :: l) = i :: dedupFirst (i.name :: s) l := by
  simp [dedupFirst, hm]

theorem dedupFirst_congr : ∀ (l : List Item) (s1 s2 : List String),
    (∀ x, x ∈ s1 ↔ x ∈ s2) → dedupFirst s1 l = dedupFirst s2 l
  | [], _, _, _ => rfl
  | i :: rest, s1, s2, h => by
    by_cases hm : i.name ∈ s1
    · rw [dedupFirst_cons_of_mem rest hm,
        dedupFirst_cons_of_mem rest ((h i.name).mp hm)]
      exact dedupFirst_congr rest s1 s2 h
    · rw [dedupFirst_cons_of_not_mem rest hm,
        dedupFirst_cons_of_not_mem rest (fun hx => hm ((h i.name).mpr hx))]
      exact congrArg (List.cons i)
        (dedupFirst_congr rest (i.name :: s1) (i.name :: s2)
          (fun x => by simp [h x]))

theorem addNewItems_snd : ∀ (items : List Item) (seen : List String)
    (acc : List Item), (addNewItems seen acc items).2 = acc ++ dedupFirst seen items
  | [], _, _ => by simp [addNewItems, dedupFirst]
  | i :: rest, seen, acc => by
    by_cases hm : i.name ∈ seen
    · rw [addNewItems, if_pos hm, dedupFirst_cons_of_mem rest hm]
      exact addNewItems_snd rest seen acc
    · rw [addNewItems, if_neg hm, dedupFirst_cons_of_not_mem rest hm,
        addNewItems_snd rest (seen ++ [i.name]) (acc ++ [i]),
        dedupFirst_congr rest (seen ++ [i.name]) (i.name :: seen)
          (fun x => by simp [or_comm])]
      simp [List.append_assoc]

theorem dedupFirst_append : ∀ (xs ys : List Item) (s : List String),
    dedupFirst s (xs ++ ys)
      = dedupFirst s xs ++ dedupFirst (xs.map Item.name ++ s) ys
  | [], ys, s => by simp [dedupFirst]
  | i :: xs, ys, s => by
    by_cases hm : i.name ∈ s
    · rw [List.cons_append, dedupFirst_cons_of_mem (xs ++ ys) hm,
        dedupFirst_cons_of_mem xs hm, dedupFirst_append xs ys s, List.map_cons,
        List.cons_append]
      refine congrArg (dedupFirst s xs ++ ·) (dedupFirst_congr ys _ _ fun x => ?_)
      simp only [List.mem_append, List.mem_cons]
      constructor
      · intro hx
        tauto
      · rintro (rfl | hx)
        · exact Or.inr hm
        · exact hx
    · rw [List.cons_append, dedupFirst_cons_of_not_mem (xs ++ ys) hm,
        dedupFirst_cons_of_not_mem xs hm, dedupFirst_append xs ys (i.name :: s),
        List.map_cons, List.cons_append, List.cons_append]
      refine congrArg (i :: dedupFirst (i.name :: s) xs ++ ·)
        (dedupFirst_congr ys _ _ fun x => ?_)
      simp only [List.mem_append, List.mem_cons]
      tauto

theorem dedupFirst_names_mem : ∀ (l : List Item) (s : List String) (n : String),
    n ∈ (dedupFirst s l).map Item.name ↔ (n ∈ l.map Item.name ∧ n ∉ s)
  | [], s, n => by simp [dedupFirst]
  | i :: rest, s, n => by
    by_cases hm : i.name ∈ s
    · rw [dedupFirst_cons_of_mem rest hm, dedupFirst_names_mem rest s n]
      simp only [List.map_cons, List.mem_cons]
      constructor
      · rintro ⟨h1, h2⟩
        exact ⟨Or.inr h1, h2⟩
      · rintro ⟨h1 | h1, h2⟩
        · exact absurd (h1 ▸ hm) h2
        · exact ⟨h1, h2⟩
    · rw [dedupFirst_cons_of_not_mem rest hm]
      simp only [List.map_cons, List.mem_cons,
        dedupFirst_names_mem rest (i.name :: s) n]
      constructor
      · rintro (rfl | ⟨h1, h2⟩)
        · exact ⟨Or.inl rfl, hm⟩
        · exact ⟨Or.inr h1, fun hx => h2 (Or.inr hx)⟩
      · rintro ⟨rfl | h1, h2⟩
        · exact Or.inl rfl
        · by_cases hni : n = i.name
          · exact Or.inl hni
          · exact Or.inr ⟨h1, fun hx => hx.elim hni h2⟩

theorem dedupFirst_sublist : ∀ (l : List Item) (s : List String),
    List.Sublist (dedupFirst s l) l
  | [], _ => List.Sublist.refl []
  | i :: rest, s => by
    by_cases hm : i.name ∈ s
    · rw [dedupFirst_cons_of_mem rest hm]
      exact (dedupFirst_sublist rest s).cons i
    · rw [dedupFirst_cons_of_not_mem rest hm]
      exact (dedupFirst_sublist rest (i.name :: s)).cons₂ i

theorem dedupFirst_nodup : ∀ (l : List Item) (s : List String),
    ((dedupFirst s l).map Item.name).Nodup
  | [], _ => by simp [dedupFirst]
  | i :: rest, s => by
    by_cases hm : i.name ∈ s
    · rw [dedupFirst_cons_of_mem rest hm]
      exact dedupFirst_nodup rest s
    · rw [dedupFirst_cons_of_not_mem rest hm, List.map_cons, List.nodup_cons]
      refine ⟨fun hmem => ?_, dedupFirst_nodup rest (i.name :: s)⟩
      exact ((dedupFirst_names_mem rest (i.name :: s) i.name).mp hmem).2
        (List.mem_cons_self _ _)

theorem dedupFirst_find? : ∀ (l : List Item) (s : List String) (n : String),
    n ∉ s →
      (dedupFirst s l).find? (fun i => decide (i.name = n))
        = l.find? (fun i => decide (i.name = n))
  | [], _, _, _ => rfl
  | i :: rest, s, n, hns => by
    by_cases hm : i.name ∈ s
    · rw [dedupFirst_cons_of_mem rest hm]
      have hni : ¬ i.name = n := fun he => hns (he ▸ hm)
      rw [List.find?_cons_of_neg _ (by simpa using hni)]
      exact dedupFirst_find? rest s n hns
    · rw [dedupFirst_cons_of_not_mem rest hm]
      by_cases hni : i.name = n
      · rw [List.find?_cons_of_pos _ (by simpa using hni),
          List.find?_cons_of_pos _ (by simpa using hni)]
      · rw [List.find?_cons_of_neg _ (by simpa using hni),
          List.find?_cons_of_neg _ (by simpa using hni)]
        exact dedupFirst_find? rest (i.name :: s) n
          (fun hx => (List.mem_cons.mp hx).elim (fun he => hni he.symm) hns)

theorem collectItems_go : ∀ (pages : List (List Item)) (xs : List Item),
    pages.foldl
      (fun all_items items =>
        if items.isEmpty then all_items
        else all_items ++ (addNewItems (all_items.map Item.name) [] items).2)
      (dedupFirst [] xs)
    = dedupFirst [] (xs ++ pages.flatten)
  | [], xs => by simp
  | items :: pages, xs => by
    rw [List.foldl_cons]
    by_cases hie : items.isEmpty
    · have hnil : items = [] := by
        cases items with
        | nil => rfl
        | cons x l => exact absurd hie (by simp)
      rw [if_pos hie, hnil, List.flatten_cons, List.nil_append]
      exact collectItems_go pages xs
    · rw [if_neg hie, addNewItems_snd items ((dedupFirst [] xs).map Item.name) []]
      rw [List.nil_append]
      have hseen : dedupFirst ((dedupFirst [] xs).map Item.name) items
          = dedupFirst (xs.map Item.name ++ []) items := by
        apply dedupFirst_congr
        intro x
        rw [dedupFirst_names_mem]
        simp
      rw [hseen, ← dedupFirst_append xs items []]
      rw [collectItems_go pages (xs ++ items)]
      rw [List.flatten_cons, List.append_assoc]

theorem collectItems_eq (pages : List (List Item)) :
    collectItems pages = dedupFirst [] pages.flatten := by
  simpa [collectItems, dedupFirst] using collectItems_go pages []


/-! ### Concrete fixtures used by the witnesses -/

def goodTuple1 : List JVal := [.str "Dec 01 2024 01: +0", .num 2, .str "5"]

def goodTuple2 : List JVal := [.str "Dec 03 2024 01: +0", .num 3, .str "7"]

/-- A raw tuple whose price field is not numeric. -/
def badTuple : List JVal := [.str "Dec 02 2024 01: +0", .str "abc", .str "5"]

def cutoff0 : DateTime := ⟨2024, 1, 1, 0, 0, 0⟩

def inputsAB : List (String × List Resp) :=
  [("A", [⟨200, [goodTuple1]⟩]), ("B", [⟨200, [goodTuple2]⟩])]

/-! ### Claim theorems -/

/-- C1: `parse_date_range` maps `"Nov 24 - Dec 14, 2025"` to start 2025-11-24
and end 2025-12-14; `"Jan 22 - 28, 2024"` to 2024-01-22 / 2024-01-28
(inheriting the start month); `"Nov 19 - 23, 2025"` to 2025-11-19 /
2025-11-23; and for every input string not containing the separator `" - "`
it returns failure (Python's `(None, None)`, modelled `none`) rather than
raising. -/
theorem parse_date_range_examples_and_failure :
    parse_date_range "Nov 24 - Dec 14, 2025"
        = some (⟨2025, 11, 24, 0, 0, 0⟩, ⟨2025, 12, 14, 0, 0, 0⟩)
  ∧ parse_date_range "Jan 22 - 28, 2024"
        = some (⟨2024, 1, 22, 0, 0, 0⟩, ⟨2024, 1, 28, 0, 0, 0⟩)
  ∧ parse_date_range "Nov 19 - 23, 2025"
        = some (⟨2025, 11, 19, 0, 0, 0⟩, ⟨2025, 11, 23, 0, 0, 0⟩)
  ∧ ∀ s : String, containsSub sepDash s.data = false →
      parse_date_range s = none := by
  refine ⟨by decide, by decide, by decide, fun s hs => ?_⟩
  simp [parse_date_range, parseDateRangeCL, hs]

/-- Witness for C1's universal conjunct at a concrete separator-free input. -/
theorem parse_date_range_examples_and_failure_witness :
    parse_date_range "November 2025" = none :=
  parse_date_range_examples_and_failure.2.2.2 "November 2025" (by decide)

/-- C9 counterexample: the pipeline's record construction accepts the
cross-month range `"Dec 14 - Jan 5, 2025"` (it matches the date regex of
`scrape_tournaments` and both dates parse), but assigns the single explicit
year to both dates, producing start 2025-12-14 > end 2025-01-05 — the claimed
invariant start ≤ end fails. -/
theorem event_start_le_end_cex :
    buildTournamentRow "BLAST Premier" "Dec 14 - Jan 5, 2025" "$1,000,000"
        "Denmark"
      = some ⟨"BLAST Premier", ⟨2025, 12, 14, 0, 0, 0⟩, ⟨2025, 1, 5, 0, 0, 0⟩,
          "Dec 14 - Jan 5, 2025", "$1,000,000", "Denmark"⟩
  ∧ dtLeb ⟨2025, 12, 14, 0, 0, 0⟩ ⟨2025, 1, 5, 0, 0, 0⟩ = false :=
  ⟨by decide, by decide⟩

/-- C9 (amended): both returned dates are pure dates (zero time-of-day), and
whenever they carry the same year — as the parser produces for every
documented input shape — start ≤ end holds exactly when the end (month, day)
pair is not before the start (month, day) pair; in particular a range ending
in an earlier month (December → January) violates start ≤ end. -/
theorem event_start_le_end_amended (s : String) (a b : DateTime)
    (h : parse_date_range s = some (a, b)) (hy : a.year = b.year) :
    dtLeb a b = true ↔
      (a.month < b.month ∨ (a.month = b.month ∧ a.day ≤ b.day)) := by
  obtain ⟨⟨ha1, ha2, ha3⟩, hb1, hb2, hb3⟩ := parse_date_range_time h
  exact dtLeb_date_iff hy ha1 ha2 ha3 hb1 hb2 hb3

/-- Witness for C9's amended theorem at a parsed cross-month range. -/
theorem event_start_le_end_amended_witness :
    dtLeb ⟨2025, 11, 24, 0, 0, 0⟩ ⟨2025, 12, 14, 0, 0, 0⟩ = true :=
  (event_start_le_end_amended "Nov 24 - Dec 14, 2025"
      ⟨2025, 11, 24, 0, 0, 0⟩ ⟨2025, 12, 14, 0, 0, 0⟩
      (by decide) (by decide)).mpr (by decide)

/-- C10: `filter_last_year` keeps an event iff its end date is ≥ the cutoff
(so an event whose start date precedes the cutoff is still kept when its end
date falls inside the window), and returns the kept events sorted by start
date ascending. -/
theorem filter_last_year_spec (ts : List Tournament) (one_year_ago : DateTime) :
    (∀ t, t ∈ filter_last_year ts one_year_ago
        ↔ (t ∈ ts ∧ dtLeb one_year_ago t.end_date = true))
  ∧ List.Pairwise (fun x y => startLeb x y = true)
      (filter_last_year ts one_year_ago) := by
  constructor
  · intro t
    unfold filter_last_year
    rw [List.mem_mergeSort, List.mem_filter]
  · unfold filter_last_year
    exact @List.sorted_mergeSort Tournament startLeb
      (fun x y z hx hy => dtLeb_trans hx hy)
      (fun x y => dtLeb_total x.start_date y.start_date) _

/-- C4: `get_price_history` is a bounded retry state machine: a throttling
(429) response with `retry_count < max_retries` sleeps
`rate_limit_backoff * (retry_count + 1)` seconds and retries with the
incremented count; once `retry_count` reaches the ceiling of 3 it returns
failure; any other non-200 status returns failure immediately with no
retry; three consecutive 429s followed by a 200 return the extraction result
of the 200 body after exactly the three strictly increasing backoff sleeps
60, 120, 180. -/
theorem get_price_history_retry_spec (item : String) (c : DateTime) :
    (∀ (body : List (List JVal)) (rest : List Resp),
        get_price_history item c
          (⟨429, []⟩ :: ⟨429, []⟩ :: ⟨429, []⟩ :: ⟨200, body⟩ :: rest) 0 3
          = (extract_from_page_source body item c, [60, 120, 180]))
  ∧ List.Chain' (· < ·) [60, 120, 180]
  ∧ (∀ (r : Resp) (rest : List Resp) (rc : Nat), r.status = 429 → ¬ rc < 3 →
      get_price_history item c (r :: rest) rc 3 = (none, []))
  ∧ (∀ (r : Resp) (rest : List Resp) (rc mx : Nat), r.status = 429 → rc < mx →
      get_price_history item c (r :: rest) rc mx
        = ((get_price_history item c rest (rc + 1) mx).1,
            rate_limit_backoff * (rc + 1)
              :: (get_price_history item c rest (rc + 1) mx).2))
  ∧ (∀ (r : Resp) (rest : List Resp) (rc mx : Nat),
      r.status ≠ 429 → r.status ≠ 200 →
      get_price_history item c (r :: rest) rc mx = (none, [])) := by
  refine ⟨fun body rest => rfl,
    List.chain'_cons.mpr ⟨by norm_num,
      List.chain'_cons.mpr ⟨by norm_num, List.chain'_singleton _⟩⟩,
    fun r rest rc h429 hrc => ?_,
    fun r rest rc mx h429 hrc => ?_,
    fun r rest rc mx h429 h200 => ?_⟩
  · rw [get_price_history, if_pos h429, if_neg hrc]
  · rw [get_price_history, if_pos h429, if_pos hrc]
  · rw [get_price_history, if_neg h429, if_pos h200]

/-- Witness for C4 at a concrete non-throttling, non-success response. -/
theorem get_price_history_retry_witness :
    get_price_history "X" cutoff0 [⟨404, []⟩] 0 3 = (none, []) :=
  (get_price_history_retry_spec "X" cutoff0).2.2.2.2 ⟨404, []⟩ [] 0 3
    (by decide) (by decide)

/-- C6: tuple-conversion failures are isolated per tuple: a tuple whose
conversion fails (for example a non-numeric price field) is dropped and the
extraction result is exactly that of the batch without it; every tuple that
converts and passes the window filter appears in the returned list; a batch
in which no tuple survives yields `none`, and the extractor never returns
`some []`. -/
theorem extract_isolation_spec (item : String) (c : DateTime) :
    (∀ (pre post : List (List JVal)) (e : List JVal), convEntry item e = none →
        extract_from_page_source (pre ++ e :: post) item c
          = extract_from_page_source (pre ++ post) item c)
  ∧ (∀ (pd : List (List JVal)) (e : List JVal) (o : Obs) (l : List Obs),
        e ∈ pd → convEntry item e = some o → dtLeb c o.date = true →
        extract_from_page_source pd item c = some l → o ∈ l)
  ∧ (∀ pd : List (List JVal), (∀ e ∈ pd, keepEntry item c e = none) →
        extract_from_page_source pd item c = none)
  ∧ (∀ pd : List (List JVal), extract_from_page_source pd item c ≠ some []) := by
  refine ⟨fun pre post e hconv => ?_, fun pd e o l he hconv hwin hex => ?_,
    fun pd hall => ?_, fun pd h => (extract_eq_some h).2 rfl⟩
  · have hkeep : keepEntry item c e = none := by
      simp [keepEntry, hconv]
    have hfm : (pre ++ e :: post).filterMap (keepEntry item c)
        = (pre ++ post).filterMap (keepEntry item c) := by
      simp [List.filterMap_append, List.filterMap_cons, hkeep]
    by_cases hpp : (pre ++ post).isEmpty
    · have hpre : pre = [] := by
        cases pre with
        | nil => rfl
        | cons x xs => simp at hpp
      have hpost : post = [] := by
        cases post with
        | nil => rfl
        | cons x xs => rw [hpre] at hpp; simp at hpp
      subst hpre
      subst hpost
      simp [extract_from_page_source, List.filterMap_cons, hkeep]
    · have h1 : (pre ++ e :: post).isEmpty = false := by
        cases pre <;> simp

      simp only [extract_from_page_source, hfm, h1, Bool.false_eq_true,
        if_false, hpp]
  · obtain ⟨hl, -⟩ := extract_eq_some hex
    subst hl
    exact List.mem_filterMap.mpr ⟨e, he, keepEntry_eq_some.mpr ⟨hconv, hwin⟩⟩
  · have hnil : pd.filterMap (keepEntry item c) = [] :=
      List.filterMap_eq_nil_iff.mpr hall
    unfold extract_from_page_source
    by_cases hpd : pd.isEmpty
    · rw [if_pos hpd]
    · rw [if_neg hpd, hnil]
      rfl

/-- Witness for C6: dropping the non-numeric-price tuple from a concrete
batch leaves the extraction of the remaining valid tuples unchanged. -/
theorem extract_isolation_witness :
    extract_from_page_source ([goodTuple1] ++ badTuple :: [goodTuple2])
        "X" cutoff0
      = extract_from_page_source ([goodTuple1] ++ [goodTuple2]) "X" cutoff0 :=
  (extract_isolation_spec "X" cutoff0).1 [goodTuple1] [goodTuple2] badTuple
    (by decide)

/-- C8 counterexample: the extractor performs no positivity check on the
price, so a raw tuple whose price field is `0` is converted and accepted into
the output with price 0, refuting "every accepted observation has
price > 0". -/
theorem extract_zero_price_cex :
    extract_from_page_source [[.str "Dec 01 2024 01: +0", .num 0, .str "5"]]
        "CaseX" cutoff0
      = some [⟨"CaseX", ⟨2024, 12, 1, 1, 0, 0⟩, 0, 5⟩]
  ∧ ¬ (0 : ℚ) < (⟨"CaseX", ⟨2024, 12, 1, 1, 0, 0⟩, (0 : ℚ), 5⟩ : Obs).price :=
  ⟨by decide, by decide⟩

/-- C8 (amended): the extractor carries the converted raw price field through
unchanged and applies no positivity filter; if every raw tuple whose price
field converts yields a positive number, then every accepted observation has
price > 0 (a raw tuple with converting price field 0 is accepted with
price 0, as the counterexample shows). -/
theorem extract_price_positive (item : String) (c : DateTime)
    (pd : List (List JVal)) (l : List Obs)
    (hpos : ∀ e ∈ pd, priceFieldPos e = true)
    (hex : extract_from_page_source pd item c = some l) :
    ∀ o ∈ l, 0 < o.price := by
  intro o ho
  obtain ⟨hl, -⟩ := extract_eq_some hex
  subst hl
  obtain ⟨e, he, hk⟩ := List.mem_filterMap.mp ho
  obtain ⟨hc, -⟩ := keepEntry_eq_some.mp hk
  have hpf : priceField e = some o.price := convEntry_price hc
  have hp := hpos e he
  simp only [priceFieldPos, hpf] at hp
  exact of_decide_eq_true hp

/-- Witness for C8's amended theorem at a concrete all-positive batch. -/
theorem extract_price_positive_witness :
    0 < (⟨"X", ⟨2024, 12, 1, 1, 0, 0⟩, (2 : ℚ), 5⟩ : Obs).price :=
  extract_price_positive "X" cutoff0 [goodTuple1]
    [⟨"X", ⟨2024, 12, 1, 1, 0, 0⟩, 2, 5⟩] (by decide) (by decide)
    ⟨"X", ⟨2024, 12, 1, 1, 0, 0⟩, 2, 5⟩ (by decide)

/-- C2: the rolling-window invariant: the extractor keeps a converted tuple
only if its timestamp is ≥ the single cutoff (`one_year_ago`, computed once
at run start and passed everywhere), so every row of every written snapshot
and of the final persisted table has timestamp ≥ the cutoff — no observation
older than the window ever appears in the output. -/
theorem price_window_invariant (inputs : List (String × List Resp))
    (c : DateTime) :
    (∀ (pd : List (List JVal)) (item : String) (l : List Obs) (o : Obs),
        extract_from_page_source pd item c = some l → o ∈ l →
          dtLeb c o.date = true)
  ∧ (∀ r ∈ finalTable inputs c, dtLeb c r.date = true)
  ∧ (∀ (k : Nat) (r : Row), r ∈ (snapshotsOf inputs c).getD k [] →
        dtLeb c r.date = true) :=
  ⟨fun _ _ _ _ hex ho => (extract_mem hex ho).2,
   fun _ hr => finalTable_window hr,
   fun _ _ hr => snapshot_window hr⟩

/-- Witness for C2 on a concrete two-entry run. -/
theorem price_window_invariant_witness :
    dtLeb cutoff0 (⟨"A", ⟨2024, 12, 1, 1, 0, 0⟩, 2⟩ : Row).date = true :=
  (price_window_invariant inputsAB cutoff0).2.1 ⟨"A", ⟨2024, 12, 1, 1, 0, 0⟩, 2⟩
    (mem_sortRows.mpr (by decide))

/-- C7: every written snapshot and the final table are sorted with primary
key entry identifier and secondary key timestamp, and the sort is idempotent:
re-sorting an already-written output table (and more generally any sorted
output) is a no-op. -/
theorem price_table_sorted_idempotent (inputs : List (String × List Resp))
    (c : DateTime) :
    (∀ k, List.Pairwise rowLe ((snapshotsOf inputs c).getD k []))
  ∧ List.Pairwise rowLe (finalTable inputs c)
  ∧ sortRows (finalTable inputs c) = finalTable inputs c
  ∧ (∀ l : List Row, List.Pairwise rowLe (sortRows l)
        ∧ sortRows (sortRows l) = sortRows l) :=
  ⟨snapshot_sorted inputs c, sortRows_sorted _, sortRows_idem _,
   fun l => ⟨sortRows_sorted l, sortRows_idem l⟩⟩

/-- C5: the cross-page accumulation keeps pairwise-distinct identifiers with
first occurrence winning: the merged list is a sublist of the concatenated
pages, its identifiers are duplicate-free, the entry found for each
identifier is the first-seen one, and every identifier appearing on any page
occurs exactly once. -/
theorem collect_items_dedup_spec (pages : List (List Item)) :
    ((collectItems pages).map Item.name).Nodup
  ∧ List.Sublist (collectItems pages) pages.flatten
  ∧ (∀ n : String, (collectItems pages).find? (fun i => decide (i.name = n))
        = pages.flatten.find? (fun i => decide (i.name = n)))
  ∧ (∀ n : String, n ∈ pages.flatten.map Item.name →
        ((collectItems pages).map Item.name).count n = 1) := by
  rw [collectItems_eq]
  refine ⟨dedupFirst_nodup _ _, dedupFirst_sublist _ _,
    fun n => dedupFirst_find? _ _ n (by simp), fun n hn => ?_⟩
  have hmem : n ∈ (dedupFirst [] pages.flatten).map Item.name :=
    (dedupFirst_names_mem _ _ _).mpr ⟨hn, by simp⟩
  exact List.count_eq_one_of_mem (dedupFirst_nodup _ _) hmem

/-- Witness for C5: two pages where page 2 repeats identifier "A" from
page 1 — the merged list contains "A" exactly once. -/
theorem collect_items_dedup_witness :
    ((collectItems [[⟨"A", "u1"⟩, ⟨"B", "u2"⟩], [⟨"A", "u3"⟩, ⟨"C", "u4"⟩]]).map
        Item.name).count "A" = 1 :=
  (collect_items_dedup_spec [[⟨"A", "u1"⟩, ⟨"B", "u2"⟩], [⟨"A", "u3"⟩, ⟨"C", "u4"⟩]]).2.2.2
    "A" (by decide)

/-- C3: with duplicate-free entry identifiers (guaranteed by Step 1's
deduplication), the snapshot written after the k-th successful entry is a
strict subset by entry identifier of the snapshot written after the
(k+1)-th: no row of the earlier write is removed or altered (multiset
containment), the k-th write contains exactly the observations accepted in
the first k+1 successes, and the file after a complete run equals the final
write. -/
theorem aggregator_snapshot_monotone (inputs : List (String × List Resp))
    (c : DateTime) (k : Nat) (hnd : (inputs.map Prod.fst).Nodup)
    (hk : k + 1 < (snapshotsOf inputs c).length) :
    (((snapshotsOf inputs c).getD k []) : Multiset Row)
        ≤ (((snapshotsOf inputs c).getD (k + 1) []) : Multiset Row)
  ∧ rowNames ((snapshotsOf inputs c).getD k [])
      ⊂ rowNames ((snapshotsOf inputs c).getD (k + 1) [])
  ∧ (((snapshotsOf inputs c).getD k []) : Multiset Row)
      = ((projectRows
          ((((successResults c inputs).take (k + 1)).map Prod.snd).flatten))
            : Multiset Row)
  ∧ (snapshotsOf inputs c).getLast? = some (finalTable inputs c) := by
  rw [snapshotsOf_length] at hk
  obtain ⟨h1, h2⟩ := snapshot_mono hnd hk
  refine ⟨h1, h2, ?_, ?_⟩
  · rw [snapshotsOf_getD (Nat.lt_of_succ_lt hk)]
    exact sortRows_coe _
  · exact snapshotsOf_getLast
      (Nat.pos_iff_ne_zero.mp (Nat.lt_of_le_of_lt (Nat.zero_le _) hk))

/-- Witness for C3 on a concrete two-entry run with distinct identifiers. -/
theorem aggregator_snapshot_monotone_witness :
    (snapshotsOf inputsAB cutoff0).getLast? = some (finalTable inputsAB cutoff0) :=
  (aggregator_snapshot_monotone inputsAB cutoff0 0 (by decide) (by decide)).2.2.2

end CsCases
